import Mathlib

/-
  Verification of matt2000/cfeconfig (src/cfeconfig/config.py).

  Shallow embedding of the layered configuration resolver: Python values are
  modelled by an inductive type, Python dicts (insertion-ordered, overwrite in
  place) by association lists, the process environment by an association list
  of strings, and the two module-level globals (the shared store and the set of
  seen namespaces) plus the heap of dict objects by an explicit state record.
  Mutable dict objects (needed to observe the copy/alias behaviour of load and
  get) are heap cells addressed by natural numbers.
-/

set_option maxRecDepth 10000

namespace Cfeconfig

/-- Python values that occur in the program: strings, booleans, ints
(docopt/YAML can hand ints to the resolver), Python None, and references to
dict objects living on the heap (nested mappings from file parsing). -/
inductive PyVal where
  | str (s : String)
  | bool (b : Bool)
  | int (n : Int)
  | none
  | ref (a : Nat)
deriving DecidableEq, Repr

/-- A Python dict of config values: insertion-ordered association list. -/
abbrev Dict := List (String × PyVal)

/-- The process environment (os.environ): insertion-ordered name/value list. -/
abbrev Env := List (String × String)

/-- Lookup in a Python dict: value of the first (hence unique, for lists built
by assocSet) entry with the given key. Models d.get(k) / d[k]. -/
def assocGet {α : Type} : List (String × α) → String → Option α
  | [], _ => Option.none
  | p :: rest, k => if p.1 == k then some p.2 else assocGet rest k

/-- Python d[k] = v: overwrite in place if the key exists (keeping its
position, as CPython dicts do), otherwise append at the end. -/
def assocSet {α : Type} : List (String × α) → String → α → List (String × α)
  | [], k, v => [(k, v)]
  | p :: rest, k, v =>
      if p.1 == k then (k, v) :: rest else p :: assocSet rest k v

/-- Python d.update(l): apply every entry of l to d in iteration order. -/
def assocUpdate {α : Type} (d : List (String × α)) :
    List (String × α) → List (String × α)
  | [] => d
  | (k, v) :: rest => assocUpdate (assocSet d k v) rest

/-- Python str.replace on character lists: leftmost, non-overlapping
replacement of every occurrence; fuel is the length of the subject string
(enough because every step consumes at least one character when the pattern is
nonempty; every pattern used by this program ends in an underscore and is
nonempty). -/
def replaceAux (pat repl : List Char) : Nat → List Char → List Char
  | _, [] => []
  | 0, s => s
  | fuel + 1, c :: rest =>
      if pat ≠ [] ∧ pat.isPrefixOf (c :: rest) then
        repl ++ replaceAux pat repl fuel ((c :: rest).drop pat.length)
      else
        c :: replaceAux pat repl fuel rest

/-- Python s.replace(pat, repl). -/
def pyReplace (s pat repl : String) : String :=
  ⟨replaceAux pat.toList repl.toList s.toList.length s.toList⟩

/-- Python s.upper() (ASCII, which is all this program uses). -/
def pyUpper (s : String) : String := ⟨s.toList.map Char.toUpper⟩

/-- Python s.lower() (ASCII, which is all this program uses). -/
def pyLower (s : String) : String := ⟨s.toList.map Char.toLower⟩

/-- The character set "-<> " stripped from option names. -/
def optStripChar (c : Char) : Bool := c == '-' || c == '<' || c == '>' || c == ' '

/-- Python s.strip("-<> "): drop those characters from both ends. -/
def pyStrip (s : String) : String :=
  ⟨((s.toList.dropWhile optStripChar).reverse.dropWhile optStripChar).reverse⟩

/-- Python s.startswith(p). -/
def pyStartsWith (s p : String) : Bool := p.toList.isPrefixOf s.toList

/-- Python str(v) for the values this program passes to str(): strings,
booleans, ints and None. A dict value never reaches str() in this program
(load filters non-strings out of str_conf before projecting), so the ref case
is a fixed placeholder for totality. -/
def pyStr : PyVal → String
  | .str s => s
  | .bool b => if b then "True" else "False"
  | .int n => toString n
  | .none => "None"
  | .ref _ => "{...}"

/-- The option-name normalization in opts2env:
k.upper().strip("-<> ").replace("-", "_"). -/
def normalizeKey (k : String) : String :=
  pyReplace (pyStrip (pyUpper k)) "-" "_"

/-- The projected string for a value in opts2env:
"1" if v is True else str(v). -/
def projVal (v : PyVal) : String :=
  if v = PyVal.bool true then "1" else pyStr v

/-- opts2env with the prefix already uppercased (the source uppercases it once
at entry): for each entry in iteration order, build PREFIX_ + normalized name
and, unless the value is the False boolean or None, write str-projected value
into the environment. -/
def opts2envAux (P : String) (opts : Dict) (env : Env) : Env :=
  match opts with
  | [] => env
  | (k, v) :: rest =>
      let name := P ++ "_" ++ normalizeKey k
      opts2envAux P rest
        (if v = PyVal.bool false ∨ v = PyVal.none then env
         else assocSet env name (projVal v))

/-- opts2env(opts, prefix): project the options into the environment under the
uppercased namespace. Returns the new environment (the Python function mutates
os.environ and returns None). -/
def opts2env (opts : Dict) (pfx : String) (env : Env) : Env :=
  opts2envAux (pyUpper pfx) opts env

/-- The boolean coercion in load_from_env:
False if str(v).lower() in ["0", "false", "no"] else v. -/
def coerce (v : String) : PyVal :=
  if pyLower v = "0" ∨ pyLower v = "false" ∨ pyLower v = "no" then
    PyVal.bool false
  else
    PyVal.str v

/-- The loop of load_from_env: scan the environment in order; for each
variable whose name starts with PREFIX_, store its coerced value under the
name with every occurrence of PREFIX_ removed (Python k.replace(prefix + "_",
"") replaces all occurrences, not only the leading one). -/
def loadEnvAux (P : String) (env : Env) (config : Dict) : Dict :=
  match env with
  | [] => config
  | (k, v) :: rest =>
      loadEnvAux P rest
        (if pyStartsWith k (P ++ "_") then
          assocSet config (pyReplace k (P ++ "_") "") (coerce v)
         else config)

/-- load_from_env(prefix): dict of the coerced environment variables in the
uppercased prefix's namespace. -/
def load_from_env (pfx : String) (env : Env) : Dict :=
  loadEnvAux (pyUpper pfx) env []

/-- The dict comprehension {k.upper(): v for k, v in parsed.items()}. -/
def upperKeysAux (d acc : Dict) : Dict :=
  match d with
  | [] => acc
  | (k, v) :: rest => upperKeysAux rest (assocSet acc (pyUpper k) v)

/-- Uppercase all keys of a parsed file mapping. -/
def upperKeys (d : Dict) : Dict := upperKeysAux d []

/-- type(v) is str. -/
def isStr : PyVal → Bool
  | .str _ => true
  | _ => false

/-- The heap of Python dict objects: cell contents indexed by address, plus
the next fresh address. -/
structure Heap where
  cells : Nat → Dict
  next : Nat

/-- Read the dict object at an address. -/
def Heap.get (h : Heap) (a : Nat) : Dict := h.cells a

/-- Overwrite the dict object at an address (in-place dict mutation). -/
def Heap.write (h : Heap) (a : Nat) (d : Dict) : Heap :=
  ⟨fun i => if i = a then d else h.cells i, h.next⟩

/-- Allocate a fresh dict object, returning its address. -/
def Heap.alloc (h : Heap) (d : Dict) : Nat × Heap :=
  (h.next, ⟨fun i => if i = h.next then d else h.cells i, h.next + 1⟩)

/-- The empty heap. -/
def initHeap : Heap := ⟨fun _ => [], 0⟩

/-- Process-wide state: the heap of dict objects, os.environ, the global
immutable_config_values (None or the address of the store object), and the
global seen_prefixes set (as a list without duplicates). -/
structure PyState where
  heap : Heap
  env : Env
  store : Option Nat
  seen : List String

/-- A fresh process state: no objects, empty environment, no store, nothing
seen. -/
def initState : PyState := ⟨initHeap, [], Option.none, []⟩

/-- seen_prefixes.add(prefix). -/
def seenAdd (p : String) (l : List String) : List String :=
  if p ∈ l then l else l ++ [p]

/-- The seeding step of load: if the global store exists and this exact
prefix string is in seen_prefixes, the working snapshot conf starts as
get()'s copy of the store contents (value copy: the temporary is never
exposed, so its heap identity does not matter); otherwise it starts empty. -/
def loadSeed (pfx : String) (s : PyState) : Dict :=
  match s.store with
  | some a => if pfx ∈ s.seen then s.heap.get a else []
  | _ => []

/-- The contents of the shared store as observed through the heap (empty when
the store has never been created). -/
def storeDict (s : PyState) : Dict :=
  match s.store with
  | some a => s.heap.get a
  | _ => []

/-- The local conf of load after the file merge:
conf seeded, then conf.update(uppercased file mapping). fileUpper is the
uppercased parsed mapping, [] when no file was given. -/
def loadConf (pfx : String) (fileUpper : Dict) (s : PyState) : Dict :=
  assocUpdate (loadSeed pfx s) fileUpper

/-- The local str_conf of load: the string-only view of conf
({k: v for k, v in conf.items() if type(v) is str}) overlaid with the
caller-supplied options (str_conf.update(opts)). -/
def loadStrConf (opts : Dict) (pfx : String) (fileUpper : Dict) (s : PyState) :
    Dict :=
  assocUpdate ((loadConf pfx fileUpper s).filter (fun kv => isStr kv.2)) opts

/-- The environment after load's opts2env(str_conf, prefix) projection. -/
def loadEnvAfter (opts : Dict) (pfx : String) (fileUpper : Dict)
    (s : PyState) : Env :=
  opts2env (loadStrConf opts pfx fileUpper s) pfx s.env

/-- The working snapshot at the end of load's pipeline:
conf.update(load_from_env(prefix)) after the projection. -/
def workConf (opts : Dict) (pfx : String) (fileUpper : Dict) (s : PyState) :
    Dict :=
  assocUpdate (loadConf pfx fileUpper s)
    (load_from_env pfx (loadEnvAfter opts pfx fileUpper s))

/-- The body of load after the file has been parsed successfully:
run the pipeline above, then merge the working snapshot into the global store
(creating it on first use, OrderedDict(conf), else update in place) and mark
the prefix seen. Returns the address of the store object (Python returns the
store object itself, not a copy). -/
def loadOk (opts : Dict) (pfx : String) (fileUpper : Dict) (s : PyState) :
    Nat × PyState :=
  let conf' := workConf opts pfx fileUpper s
  let env' := loadEnvAfter opts pfx fileUpper s
  match s.store with
  | Option.none =>
      let (a, h') := s.heap.alloc conf'
      (a, ⟨h', env', some a, seenAdd pfx s.seen⟩)
  | some a =>
      (a, ⟨s.heap.write a (assocUpdate (s.heap.get a) conf'), env', some a,
           seenAdd pfx s.seen⟩)

/-- load(opts, prefix, fname): the file argument carries the outcome of the
external collaborator parse_config_file: Option.none models fname=None (no
file), some (.error e) a file-read/parse failure (which propagates before any
global is touched), some (.ok d) the parsed mapping. Returns the result
(address of the store object, or the propagated error) and the state. -/
def load (opts : Dict) (pfx : String) (file : Option (Except Unit Dict))
    (s : PyState) : Except Unit Nat × PyState :=
  match file with
  | some (Except.error e) => (Except.error e, s)
  | some (Except.ok d) =>
      let r := loadOk opts pfx (upperKeys d) s
      (Except.ok r.1, r.2)
  | Option.none =>
      let r := loadOk opts pfx [] s
      (Except.ok r.1, r.2)

/-- Allocate and return a shallow copy of the store object (the no-key branch
of get, immutable_config_values.copy()). -/
def getAll (a : Nat) (s : PyState) : Except Unit PyVal × PyState :=
  let (c, h') := s.heap.alloc (s.heap.get a)
  (Except.ok (PyVal.ref c), ⟨h', s.env, s.store, s.seen⟩)

/-- get(key, default): when the store has never been created, bootstrap by
load({}, prefix="CFE", fname="config.yml") (boot is that file's parse
outcome). With a truthy key (Python `if key:`; None and "" are falsy),
uppercase it, look it up, default when absent, and return a shallow copy when
the value is a dict object (val.copy() if hasattr(val, "copy")). With no
truthy key, return a shallow copy of the whole store. -/
def get (key : Option String) (default : PyVal) (boot : Except Unit Dict)
    (s : PyState) : Except Unit PyVal × PyState :=
  let init : Except Unit Nat × PyState :=
    match s.store with
    | some a => (Except.ok a, s)
    | Option.none => load [] "CFE" (some boot) s
  match init with
  | (Except.error e, s') => (Except.error e, s')
  | (Except.ok a, s') =>
      match key with
      | some k =>
          if k = "" then getAll a s'
          else
            match (assocGet (s'.heap.get a) (pyUpper k)).getD default with
            | PyVal.ref b =>
                let (c, h') := s'.heap.alloc (s'.heap.get b)
                (Except.ok (PyVal.ref c), ⟨h', s'.env, s'.store, s'.seen⟩)
            | v => (Except.ok v, s')
      | Option.none => getAll a s'

/-- Caller-side mutation m[k] = v of the dict object at address a. -/
def setItem (s : PyState) (a : Nat) (k : String) (v : PyVal) : PyState :=
  ⟨s.heap.write a (assocSet (s.heap.get a) k v), s.env, s.store, s.seen⟩

/-! ### Generic lemmas about the Python-dict association-list operations -/

/-- Setting a key makes it present with that value. -/
theorem assocGet_assocSet_self {α : Type} (d : List (String × α)) (k : String)
    (v : α) : assocGet (assocSet d k v) k = some v := by
  induction d with
  | nil => simp [assocGet, assocSet]
  | cons p rest ih =>
      by_cases hp : p.1 == k
      · simp [assocGet, assocSet, hp]
      · simpa [assocGet, assocSet, hp] using ih

/-- Setting a key leaves every other key unchanged. -/
theorem assocGet_assocSet_ne {α : Type} (d : List (String × α)) {k k' : String}
    (v : α) (h : k' ≠ k) : assocGet (assocSet d k v) k' = assocGet d k' := by
  have hk : (k == k') = false := by
    simp only [beq_eq_false_iff_ne, ne_eq]
    exact fun e => h e.symm
  induction d with
  | nil => simp [assocGet, assocSet, hk]
  | cons p rest ih =>
      by_cases hp : p.1 == k
      · have hpk : p.1 = k := by simpa using hp
        have hp' : (p.1 == k') = false := by simp [hpk, hk]
        simp [assocGet, assocSet, hp, hk, hp']
      · by_cases hp' : p.1 == k'
        · simp [assocGet, assocSet, hp, hp']
        · simpa [assocGet, assocSet, hp, hp'] using ih

/-- Either the set key was hit, or the lookup passes through. -/
theorem assocGet_assocSet_cases {α : Type} {d : List (String × α)}
    {k k' : String} {v w : α} (h : assocGet (assocSet d k v) k' = some w) :
    (k' = k ∧ w = v) ∨ assocGet d k' = some w := by
  by_cases hk : k' = k
  · subst hk
    rw [assocGet_assocSet_self] at h
    exact Or.inl ⟨rfl, (Option.some_inj.mp h).symm⟩
  · rw [assocGet_assocSet_ne d v hk] at h
    exact Or.inr h

/-- Setting any key preserves presence of every key. -/
theorem assocGet_assocSet_isSome {α : Type} {d : List (String × α)}
    {k' : String} (k : String) (v : α)
    (h : (assocGet d k').isSome = true) :
    (assocGet (assocSet d k v) k').isSome = true := by
  by_cases hk : k' = k
  · subst hk; simp [assocGet_assocSet_self]
  · rwa [assocGet_assocSet_ne d v hk]

/-- Updating preserves presence of every key of the base dict. -/
theorem assocGet_assocUpdate_isSome {α : Type} {k : String} :
    ∀ (l d : List (String × α)), (assocGet d k).isSome = true →
      (assocGet (assocUpdate d l) k).isSome = true := by
  intro l
  induction l with
  | nil => intro d h; simpa [assocUpdate] using h
  | cons p rest ih =>
      intro d h
      exact ih _ (assocGet_assocSet_isSome p.1 p.2 h)

/-- Every key present on the update side is present in the update. -/
theorem assocGet_assocUpdate_right_isSome {α : Type} {k : String} :
    ∀ (l d : List (String × α)), (assocGet l k).isSome = true →
      (assocGet (assocUpdate d l) k).isSome = true := by
  intro l
  induction l with
  | nil => intro d h; simp [assocGet] at h
  | cons p rest ih =>
      intro d h
      cases p with
      | mk a b =>
          simp only [assocUpdate]
          by_cases hk : a == k
          · have hak : a = k := by simpa using hk
            subst hak
            exact assocGet_assocUpdate_isSome rest _
              (by simp [assocGet_assocSet_self])
          · exact ih _ (by simpa [assocGet, hk] using h)

/-- Anything found in an update came from one side or the other. -/
theorem assocGet_assocUpdate_cases {α : Type} {k : String} {w : α} :
    ∀ (l d : List (String × α)),
      assocGet (assocUpdate d l) k = some w →
      assocGet d k = some w ∨ ∃ v, (k, v) ∈ l := by
  intro l
  induction l with
  | nil => intro d h; exact Or.inl h
  | cons p rest ih =>
      intro d h
      rcases ih _ h with h' | ⟨v, hv⟩
      · rcases assocGet_assocSet_cases h' with ⟨hk, _⟩ | h''
        · exact Or.inr ⟨p.2, by simp [hk]⟩
        · exact Or.inl h''
      · exact Or.inr ⟨v, List.mem_cons_of_mem _ hv⟩

/-- A successful lookup exhibits a member of the list. -/
theorem assocGet_mem {α : Type} {k : String} {w : α} :
    ∀ {d : List (String × α)}, assocGet d k = some w → (k, w) ∈ d := by
  intro d
  induction d with
  | nil => intro h; simp [assocGet] at h
  | cons p rest ih =>
      intro h
      cases p with
      | mk a b =>
          by_cases hp : a == k
          · have hak : a = k := by simpa using hp
            have hw : b = w := by simpa [assocGet, hp] using h
            subst hak; subst hw
            exact List.mem_cons_self _ _
          · exact List.mem_cons_of_mem _ (ih (by simpa [assocGet, hp] using h))

/-- Updating with entries whose keys all differ from k leaves k alone. -/
theorem assocGet_assocUpdate_absent {α : Type} {k : String} :
    ∀ (l : List (String × α)), (∀ q ∈ l, q.1 ≠ k) →
      ∀ d, assocGet (assocUpdate d l) k = assocGet d k := by
  intro l
  induction l with
  | nil => intro _ d; rfl
  | cons q rest ih =>
      intro hq d
      cases q with
      | mk a b =>
          simp only [assocUpdate]
          rw [ih (fun r hr => hq r (List.mem_cons_of_mem _ hr)),
            assocGet_assocSet_ne _ _
              (fun e => hq (a, b) (List.mem_cons_self _ _) e.symm)]

/-- With unique keys, updating stores each entry's own value. -/
theorem assocGet_assocUpdate_of_mem_nodup {α : Type} {k : String} {v : α} :
    ∀ (l d : List (String × α)), (l.map Prod.fst).Nodup → (k, v) ∈ l →
      assocGet (assocUpdate d l) k = some v := by
  intro l
  induction l with
  | nil => intro d _ h; simp at h
  | cons p rest ih =>
      intro d hnd hm
      rw [List.map_cons, List.nodup_cons] at hnd
      rcases List.mem_cons.mp hm with he | hm'
      · have hrest : ∀ q ∈ rest, q.1 ≠ k := by
          intro q hq e
          apply hnd.1
          rw [← he]
          show k ∈ List.map Prod.fst rest
          rw [← e]
          exact List.mem_map_of_mem Prod.fst hq
        cases p with
        | mk a b =>
            have hak : a = k := by
              have := congrArg Prod.fst he; simpa using this.symm
            have hbv : b = v := by
              have := congrArg Prod.snd he; simpa using this.symm
            subst hak; subst hbv
            simp only [assocUpdate]
            rw [assocGet_assocUpdate_absent rest hrest, assocGet_assocSet_self]
      · exact ih _ hnd.2 hm'

/-- Keys never disappear: the heap write/alloc and list facts used below. -/
theorem heap_get_write_self (h : Heap) (a : Nat) (d : Dict) :
    (h.write a d).get a = d := by simp [Heap.get, Heap.write]

theorem heap_get_write_ne (h : Heap) {a b : Nat} (d : Dict) (hne : b ≠ a) :
    (h.write a d).get b = h.get b := by simp [Heap.get, Heap.write, hne]

theorem heap_get_alloc_self (h : Heap) (d : Dict) :
    (h.alloc d).2.get (h.alloc d).1 = d := by simp [Heap.get, Heap.alloc]

theorem heap_get_alloc_ne (h : Heap) {b : Nat} (d : Dict) (hne : b ≠ h.next) :
    (h.alloc d).2.get b = h.get b := by simp [Heap.get, Heap.alloc, hne]

/-! ### Lemmas about the string helpers -/

theorem isPrefixOf_append (l m : List Char) : l.isPrefixOf (l ++ m) = true := by
  induction l with
  | nil => simp
  | cons c rest ih => simp [List.isPrefixOf, ih]

/-- A string extended on the right still starts with the original string. -/
theorem pyStartsWith_append (p t : String) : pyStartsWith (p ++ t) p = true := by
  unfold pyStartsWith
  have hd : (p ++ t).toList = p.toList ++ t.toList := String.data_append p t
  rw [hd]
  exact isPrefixOf_append _ _

/-! ### Lemmas about load_from_env's scan -/

theorem loadEnvAux_isSome {P k : String} :
    ∀ (env : Env) (config : Dict), (assocGet config k).isSome = true →
      (assocGet (loadEnvAux P env config) k).isSome = true := by
  intro env
  induction env with
  | nil => intro config h; exact h
  | cons p rest ih =>
      intro config h
      cases p with
      | mk n w =>
          simp only [loadEnvAux]
          by_cases hsw : pyStartsWith n (P ++ "_") = true
          · simp only [hsw, if_true]
            exact ih _ (assocGet_assocSet_isSome _ _ h)
          · simp only [hsw, if_false]
            exact ih _ h

/-- Every matching environment variable contributes its (all-occurrences)
stripped key to the result of the scan. -/
theorem loadEnvAux_complete {P : String} :
    ∀ (env : Env) (config : Dict) (n w : String), (n, w) ∈ env →
      pyStartsWith n (P ++ "_") = true →
      (assocGet (loadEnvAux P env config)
        (pyReplace n (P ++ "_") "")).isSome = true := by
  intro env
  induction env with
  | nil => intro _ _ _ h _; simp at h
  | cons p rest ih =>
      intro config n w hm hsw
      cases p with
      | mk a b =>
          simp only [loadEnvAux]
          rcases List.mem_cons.mp hm with he | hm'
          · have han : a = n := (congrArg Prod.fst he).symm
            subst han
            rw [if_pos hsw]
            exact loadEnvAux_isSome rest _
              (by simp [assocGet_assocSet_self])
          · by_cases hsa : pyStartsWith a (P ++ "_") = true
            · rw [if_pos hsa]; exact ih _ _ _ hm' hsw
            · rw [if_neg hsa]; exact ih _ _ _ hm' hsw

/-- Everything the scan stores comes from a matching environment variable,
keyed by its stripped name and holding its coerced value. -/
theorem loadEnvAux_sound {P : String} (Q : String → PyVal → Prop) :
    ∀ (env : Env) (config : Dict),
      (∀ k v, assocGet config k = some v → Q k v) →
      (∀ n w, (n, w) ∈ env → pyStartsWith n (P ++ "_") = true →
        Q (pyReplace n (P ++ "_") "") (coerce w)) →
      ∀ k v, assocGet (loadEnvAux P env config) k = some v → Q k v := by
  intro env
  induction env with
  | nil => intro config hc _ k v h; exact hc k v h
  | cons p rest ih =>
      intro config hc he k v h
      cases p with
      | mk n w =>
          simp only [loadEnvAux] at h
          by_cases hsw : pyStartsWith n (P ++ "_") = true
          · simp only [hsw, if_true] at h
            refine ih _ ?_ (fun n' w' hm hsw' =>
              he n' w' (List.mem_cons_of_mem _ hm) hsw') k v h
            intro k' v' hk'
            rcases assocGet_assocSet_cases hk' with ⟨hkk, hvv⟩ | hcfg
            · subst hkk; subst hvv
              exact he n w (List.mem_cons_self _ _) hsw
            · exact hc _ _ hcfg
          · simp only [hsw, if_false] at h
            exact ih _ hc (fun n' w' hm hsw' =>
              he n' w' (List.mem_cons_of_mem _ hm) hsw') k v h

/-- With no matching variable the scan adds nothing. -/
theorem loadEnvAux_no_match {P : String} :
    ∀ (env : Env),
      (∀ n w, (n, w) ∈ env → pyStartsWith n (P ++ "_") = false) →
      ∀ config, loadEnvAux P env config = config := by
  intro env
  induction env with
  | nil => intro _ _; rfl
  | cons p rest ih =>
      intro h config
      cases p with
      | mk n w =>
          have hn : pyStartsWith n (P ++ "_") = false :=
            h n w (List.mem_cons_self _ _)
          simp only [loadEnvAux, hn, if_false, Bool.false_eq_true]
          exact ih (fun n' w' hm => h n' w' (List.mem_cons_of_mem _ hm)) config

/-! ### Lemmas about opts2env's projection -/

theorem opts2envAux_isSome {P n : String} :
    ∀ (opts : Dict) (env : Env), (assocGet env n).isSome = true →
      (assocGet (opts2envAux P opts env) n).isSome = true := by
  intro opts
  induction opts with
  | nil => intro env h; exact h
  | cons p rest ih =>
      intro env h
      cases p with
      | mk k v =>
          simp only [opts2envAux]
          by_cases hv : v = PyVal.bool false ∨ v = PyVal.none
          · simp only [hv, if_true]; exact ih _ h
          · simp only [hv, if_false]
            exact ih _ (assocGet_assocSet_isSome _ _ h)

/-- Every entry with a projected value puts its namespaced, normalized
variable name into the environment. -/
theorem opts2envAux_mem {P : String} :
    ∀ (opts : Dict) (env : Env) (k : String) (v : PyVal), (k, v) ∈ opts →
      v ≠ PyVal.bool false → v ≠ PyVal.none →
      (assocGet (opts2envAux P opts env)
        (P ++ "_" ++ normalizeKey k)).isSome = true := by
  intro opts
  induction opts with
  | nil => intro _ _ _ h _ _; simp at h
  | cons p rest ih =>
      intro env k v hm hf hn
      cases p with
      | mk a b =>
          simp only [opts2envAux]
          rcases List.mem_cons.mp hm with he | hm'
          · have hak : a = k := (congrArg Prod.fst he).symm
            have hbv : b = v := (congrArg Prod.snd he).symm
            subst hak; subst hbv
            have hb : ¬(b = PyVal.bool false ∨ b = PyVal.none) := by
              rintro (h | h); exact hf h; exact hn h
            simp only [hb, if_false]
            exact opts2envAux_isSome rest _ (by simp [assocGet_assocSet_self])
          · by_cases hb : b = PyVal.bool false ∨ b = PyVal.none
            · simp only [hb, if_true]; exact ih _ _ _ hm' hf hn
            · simp only [hb, if_false]; exact ih _ _ _ hm' hf hn

/-! ### Lemmas about the file-key uppercasing -/

theorem upperKeysAux_isSome {k : String} :
    ∀ (d acc : Dict), (assocGet acc k).isSome = true →
      (assocGet (upperKeysAux d acc) k).isSome = true := by
  intro d
  induction d with
  | nil => intro acc h; exact h
  | cons p rest ih =>
      intro acc h
      cases p with
      | mk a b =>
          simp only [upperKeysAux]
          exact ih _ (assocGet_assocSet_isSome _ _ h)

theorem upperKeysAux_mem :
    ∀ (d acc : Dict) (k : String) (v : PyVal), (k, v) ∈ d →
      (assocGet (upperKeysAux d acc) (pyUpper k)).isSome = true := by
  intro d
  induction d with
  | nil => intro _ _ _ h; simp at h
  | cons p rest ih =>
      intro acc k v hm
      cases p with
      | mk a b =>
          simp only [upperKeysAux]
          rcases List.mem_cons.mp hm with he | hm'
          · have hak : a = k := (congrArg Prod.fst he).symm
            subst hak
            exact upperKeysAux_isSome rest _ (by simp [assocGet_assocSet_self])
          · exact ih _ _ _ hm'

/-! ### Facts about the shape of load's result -/

/-- The address load hands back is the address of the global store: the
source returns immutable_config_values itself. -/
theorem loadOk_store (opts : Dict) (pfx : String) (fu : Dict) (s : PyState) :
    (loadOk opts pfx fu s).2.store = some (loadOk opts pfx fu s).1 := by
  unfold loadOk
  cases s.store <;> simp [Heap.alloc]

/-- Presence in the final working snapshot gives presence in the store cell
load leaves behind. -/
theorem loadOk_cell_isSome {opts : Dict} {pfx : String} {fu : Dict}
    {s : PyState} {k : String}
    (h : (assocGet (workConf opts pfx fu s) k).isSome = true) :
    (assocGet ((loadOk opts pfx fu s).2.heap.get (loadOk opts pfx fu s).1)
      k).isSome = true := by
  unfold loadOk
  cases hs : s.store with
  | none => simpa [Heap.alloc, Heap.get] using h
  | some a =>
      simpa [Heap.get, Heap.write] using
        assocGet_assocUpdate_right_isSome _ _ h

/-- The store never shrinks across a successful load. -/
theorem loadOk_cell_mono {opts : Dict} {pfx : String} {fu : Dict}
    {s : PyState} {k : String}
    (h : (assocGet (storeDict s) k).isSome = true) :
    (assocGet ((loadOk opts pfx fu s).2.heap.get (loadOk opts pfx fu s).1)
      k).isSome = true := by
  unfold loadOk
  cases hs : s.store with
  | none => simp [storeDict, hs, assocGet] at h
  | some a =>
      rw [storeDict, hs] at h
      simpa [Heap.get, Heap.write] using
        assocGet_assocUpdate_isSome _ _ h

/-- A successful load reports the address that the global store now holds:
the source returns the store object itself. -/
theorem load_ok_store_addr {opts : Dict} {pfx : String}
    {file : Option (Except Unit Dict)} {s : PyState} {a : Nat} {s' : PyState}
    (h : load opts pfx file s = (Except.ok a, s')) : s'.store = some a := by
  cases file with
  | none =>
      simp only [load] at h
      injection h with h1 h2
      injection h1 with h1
      subst h1; subst h2
      exact loadOk_store _ _ _ _
  | some ef =>
      cases ef with
      | error e =>
          simp only [load] at h
          injection h with h1 h2
          exact Except.noConfusion h1
      | ok d =>
          simp only [load] at h
          injection h with h1 h2
          injection h1 with h1
          subst h1; subst h2
          exact loadOk_store _ _ _ _

/-- A successful load turns the load equation into the loadOk pipeline. -/
theorem load_ok_eq {opts : Dict} {pfx : String} {d : Dict} {s : PyState}
    {a : Nat} {s' : PyState}
    (h : load opts pfx (some (Except.ok d)) s = (Except.ok a, s')) :
    a = (loadOk opts pfx (upperKeys d) s).1 ∧
    s' = (loadOk opts pfx (upperKeys d) s).2 := by
  simp only [load] at h
  injection h with h1 h2
  injection h1 with h1
  exact ⟨h1.symm, h2.symm⟩

/-- get of a truthy key whose stored value is not a dict object returns that
value unchanged (no copy is taken). -/
theorem get_key_nonref (s : PyState) (a : Nat) (k : String) (dflt : PyVal)
    (b : Except Unit Dict) (val : PyVal) (hs : s.store = some a)
    (hk : ¬(k = "")) (hval : assocGet (s.heap.get a) (pyUpper k) = some val)
    (hnr : ∀ c, val ≠ PyVal.ref c) :
    (get (some k) dflt b s).1 = Except.ok val := by
  unfold get
  simp only [hs]
  rw [if_neg hk, hval]
  cases val with
  | ref c => exact absurd rfl (hnr c)
  | str v => rfl
  | bool v => rfl
  | int v => rfl
  | none => rfl

/-- A coerced environment value is never a dict object. -/
theorem coerce_ne_ref (w : String) (c : Nat) : coerce w ≠ PyVal.ref c := by
  unfold coerce
  split
  · exact fun h => PyVal.noConfusion h
  · exact fun h => PyVal.noConfusion h

/-- A coerced value that is a string is the raw value unchanged. -/
theorem isStr_coerce {w : String} (h : isStr (coerce w) = true) :
    coerce w = PyVal.str w := by
  by_cases hc : pyLower w = "0" ∨ pyLower w = "false" ∨ pyLower w = "no"
  · exfalso
    unfold coerce at h
    rw [if_pos hc] at h
    exact Bool.noConfusion h
  · unfold coerce
    rw [if_neg hc]

/-- Unfolding equations for the projection loop. -/
theorem opts2envAux_nil (P : String) (env : Env) :
    opts2envAux P [] env = env := rfl

theorem opts2envAux_cons (P a : String) (b : PyVal) (rest : Dict) (env : Env) :
    opts2envAux P ((a, b) :: rest) env
      = opts2envAux P rest
          (if b = PyVal.bool false ∨ b = PyVal.none then env
           else assocSet env (P ++ "_" ++ normalizeKey a) (projVal b)) := rfl

/-- Unfolding equations for the environment scan. -/
theorem loadEnvAux_nil (P : String) (config : Dict) :
    loadEnvAux P [] config = config := rfl

theorem loadEnvAux_cons (P n w' : String) (rest : Env) (config : Dict) :
    loadEnvAux P ((n, w') :: rest) config
      = loadEnvAux P rest
          (if pyStartsWith n (P ++ "_") then
            assocSet config (pyReplace n (P ++ "_") "") (coerce w')
           else config) := rfl

/-- Writing at the head key overwrites in place. -/
theorem assocSet_head_same {α : Type} (k : String) (w v : α)
    (rest : List (String × α)) :
    assocSet ((k, w) :: rest) k v = (k, v) :: rest := by
  simp [assocSet]

/-- Writing at another key passes the head through. -/
theorem assocSet_head_ne {α : Type} {a k : String} (hb : a ≠ k) (w v : α)
    (rest : List (String × α)) :
    assocSet ((a, w) :: rest) k v = (a, w) :: assocSet rest k v := by
  have : (a == k) = false := beq_eq_false_iff_ne.mpr hb
  simp [assocSet, this]

/-- Rewriting a key with the value it already holds changes nothing. -/
theorem assocSet_get_same {α : Type} :
    ∀ {d : List (String × α)} {k : String} {v : α},
      assocGet d k = some v → assocSet d k v = d := by
  intro d
  induction d with
  | nil => intro k v h; simp [assocGet] at h
  | cons p rest ih =>
      intro k v h
      cases p with
      | mk a b =>
          by_cases hp : a == k
          · have hk : a = k := by simpa using hp
            have hv : b = v := by simpa [assocGet, hp] using h
            subst hk; subst hv
            simp [assocSet]
          · rw [assocSet]
            simp only [hp, Bool.false_eq_true, if_false]
            rw [ih (by simpa [assocGet, hp] using h)]

/-- An update whose every entry re-stores the value already present is the
identity. -/
theorem assocUpdate_noop {α : Type} :
    ∀ (l d : List (String × α)),
      (∀ q ∈ l, assocGet d q.1 = some q.2) → assocUpdate d l = d := by
  intro l
  induction l with
  | nil => intro d _; rfl
  | cons p rest ih =>
      intro d h
      cases p with
      | mk a b =>
          rw [assocUpdate, assocSet_get_same (h (a, b) (List.mem_cons_self _ _))]
          exact ih d (fun q hq => h q (List.mem_cons_of_mem _ hq))

/-- Entries of a write are old entries or the written pair. -/
theorem assocSet_mem_cases {α : Type} {q : String × α} :
    ∀ {d : List (String × α)} {k : String} {v : α},
      q ∈ assocSet d k v → q ∈ d ∨ q = (k, v) := by
  intro d
  induction d with
  | nil =>
      intro k v h
      simp [assocSet] at h
      exact Or.inr h
  | cons p rest ih =>
      intro k v h
      by_cases hp : p.1 == k
      · rw [assocSet] at h
        simp only [hp, if_true] at h
        rcases List.mem_cons.mp h with he | hm
        · exact Or.inr he
        · exact Or.inl (List.mem_cons_of_mem _ hm)
      · rw [assocSet] at h
        simp only [hp, Bool.false_eq_true, if_false] at h
        rcases List.mem_cons.mp h with he | hm
        · exact Or.inl (he ▸ List.mem_cons_self _ _)
        · rcases ih hm with h' | h'
          · exact Or.inl (List.mem_cons_of_mem _ h')
          · exact Or.inr h'

/-- Updating with an empty dict changes nothing. -/
theorem assocUpdate_nil {α : Type} (d : List (String × α)) :
    assocUpdate d [] = d := rfl

/-- Observing the store through its address. -/
theorem storeDict_eq {s : PyState} {a : Nat} (hs : s.store = some a) :
    storeDict s = s.heap.get a := by
  simp [storeDict, hs]

/-- On an existing store, loadOk keeps the address and merges the working
snapshot into the store cell in place. -/
theorem loadOk_final_cell (opts : Dict) (pfx : String) (fu : Dict)
    {s : PyState} {a : Nat} (hs : s.store = some a) :
    (loadOk opts pfx fu s).2.store = some a ∧
    (loadOk opts pfx fu s).2.heap.get a
      = assocUpdate (s.heap.get a) (workConf opts pfx fu s) := by
  refine ⟨?_, ?_⟩ <;> simp [loadOk, hs, Heap.get, Heap.write]

/-- A projection all of whose non-skipped entries would re-write their
variable with the value it already holds leaves the environment unchanged. -/
theorem opts2envAux_noop {P : String} :
    ∀ (opts : Dict) (env : Env),
      (∀ kv ∈ opts, ¬(kv.2 = PyVal.bool false ∨ kv.2 = PyVal.none) →
        assocGet env (P ++ "_" ++ normalizeKey kv.1) = some (projVal kv.2)) →
      opts2envAux P opts env = env := by
  intro opts
  induction opts with
  | nil => intro env _; rfl
  | cons p rest ih =>
      intro env h
      cases p with
      | mk a b =>
          rw [opts2envAux_cons]
          by_cases hb : b = PyVal.bool false ∨ b = PyVal.none
          · rw [if_pos hb]
            exact ih env (fun q hq => h q (List.mem_cons_of_mem _ hq))
          · rw [if_neg hb,
              assocSet_get_same (h (a, b) (List.mem_cons_self _ _) hb)]
            exact ih env (fun q hq => h q (List.mem_cons_of_mem _ hq))

/-! ### The claims -/

/-- Claim C8: when the file-read or document-parse collaborator raises, load
propagates the error before touching any global: the state (store, heap,
environment, seen set) is exactly the state before the call. -/
theorem c8_failed_load_preserves_state (opts : Dict) (pfx : String)
    (s : PyState) :
    load opts pfx (some (Except.error ())) s = (Except.error (), s) := rfl

/-- Claim C2: for a matching environment variable, load_from_env stores the
False boolean when the value lowercases to "0", "false" or "no", and the raw
string unchanged otherwise. -/
theorem c2_env_boolean_coercion (pfx n w : String)
    (h : pyStartsWith n (pyUpper pfx ++ "_") = true) :
    assocGet (load_from_env pfx [(n, w)])
        (pyReplace n (pyUpper pfx ++ "_") "")
      = some (if pyLower w = "0" ∨ pyLower w = "false" ∨ pyLower w = "no"
              then PyVal.bool false else PyVal.str w) := by
  unfold load_from_env
  simp only [loadEnvAux]
  rw [if_pos h]
  simp [loadEnvAux, assocSet, assocGet, coerce]

/-- Claim C2 witness: a falsy-valued variable in the namespace reads back as
the False boolean. -/
theorem c2_env_boolean_coercion_witness :
    assocGet (load_from_env "ctest" [("CTEST_FOO", "No")])
        (pyReplace "CTEST_FOO" (pyUpper "ctest" ++ "_") "")
      = some (PyVal.bool false) :=
  (c2_env_boolean_coercion "ctest" "CTEST_FOO" "No" (by decide)).trans
    (by decide)

/-- Claim C3: opts2env, entry by entry: a True boolean is projected as the
literal "1"; a False boolean or None causes no environment write at all; an
empty string IS written; every other projected value is written as str(value).
-/
theorem c3_projection_value_policy (pfx : String) (env : Env) (k : String) :
    (∀ v : PyVal, v ≠ PyVal.bool false → v ≠ PyVal.none →
      opts2env [(k, v)] pfx env
        = assocSet env (pyUpper pfx ++ "_" ++ normalizeKey k)
            (if v = PyVal.bool true then "1" else pyStr v)) ∧
    opts2env [(k, PyVal.bool true)] pfx env
      = assocSet env (pyUpper pfx ++ "_" ++ normalizeKey k) "1" ∧
    opts2env [(k, PyVal.bool false)] pfx env = env ∧
    opts2env [(k, PyVal.none)] pfx env = env ∧
    opts2env [(k, PyVal.str "")] pfx env
      = assocSet env (pyUpper pfx ++ "_" ++ normalizeKey k) "" := by
  refine ⟨?_, ?_, ?_, ?_, ?_⟩
  · intro v hf hn
    have hb : ¬(v = PyVal.bool false ∨ v = PyVal.none) := by
      rintro (h | h)
      · exact hf h
      · exact hn h
    simp [opts2env, opts2envAux, hb, projVal]
  · simp [opts2env, opts2envAux, projVal]
  · simp [opts2env, opts2envAux]
  · simp [opts2env, opts2envAux]
  · simp [opts2env, opts2envAux, projVal, pyStr]

/-- Claim C3 witness: a plain string option value is projected as itself. -/
theorem c3_projection_value_policy_witness :
    opts2env [("--foo", PyVal.str "x")] "ctest" []
      = assocSet [] (pyUpper "ctest" ++ "_" ++ normalizeKey "--foo")
          (if PyVal.str "x" = PyVal.bool true then "1"
           else pyStr (PyVal.str "x")) :=
  (c3_projection_value_policy "ctest" [] "--foo").1 (PyVal.str "x")
    (by decide) (by decide)

/-- Claim C4 counterexample: with prefix "A", the variable A_A_B is stored
under key "B" (k.replace removes every occurrence of "A_"), not under the
claim's "A_B" (the name with only the single leading segment stripped). -/
theorem c4_counterexample :
    load_from_env "A" [("A_A_B", "x")] = [("B", PyVal.str "x")] ∧
    assocGet (load_from_env "A" [("A_A_B", "x")]) "A_B" = Option.none :=
  ⟨rfl, rfl⟩

/-- Claim C4 (amended): load_from_env contains exactly contributions of the
environment variables whose names start with uppercase(prefix) followed by
"_" (bare textual sharing of the prefix is excluded), but each variable is
stored under its name with EVERY occurrence of the PREFIX_ segment removed
(not only the single leading one): every stored value comes from such a
variable under that key with the coerced value, every matching variable's key
is present, and with no matching variable the result is empty. -/
theorem c4_namespace_read (pfx : String) (env : Env) :
    (∀ k v, assocGet (load_from_env pfx env) k = some v →
      ∃ n w, (n, w) ∈ env ∧ pyStartsWith n (pyUpper pfx ++ "_") = true ∧
        k = pyReplace n (pyUpper pfx ++ "_") "" ∧ v = coerce w) ∧
    (∀ n w, (n, w) ∈ env → pyStartsWith n (pyUpper pfx ++ "_") = true →
      (assocGet (load_from_env pfx env)
        (pyReplace n (pyUpper pfx ++ "_") "")).isSome = true) ∧
    ((∀ n w, (n, w) ∈ env → pyStartsWith n (pyUpper pfx ++ "_") = false) →
      load_from_env pfx env = []) := by
  refine ⟨?_, ?_, ?_⟩
  · intro k v h
    refine loadEnvAux_sound
      (fun k v => ∃ n w, (n, w) ∈ env ∧
        pyStartsWith n (pyUpper pfx ++ "_") = true ∧
        k = pyReplace n (pyUpper pfx ++ "_") "" ∧ v = coerce w)
      env [] ?_ ?_ k v h
    · intro k' v' h'
      simp [assocGet] at h'
    · intro n w hm hsw
      exact ⟨n, w, hm, hsw, rfl, rfl⟩
  · intro n w hm hsw
    exact loadEnvAux_complete env [] n w hm hsw
  · intro h
    exact loadEnvAux_no_match env h []

/-- Claim C4 witness: a properly namespaced variable is read back under its
stripped key. -/
theorem c4_namespace_read_witness :
    (assocGet (load_from_env "a" [("A_K", "v")])
      (pyReplace "A_K" (pyUpper "a" ++ "_") "")).isSome = true :=
  (c4_namespace_read "a" [("A_K", "v")]).2.1 "A_K" "v" (by decide) (by decide)

/-- Claim C10: the seen-prefixes membership test is case-sensitive: with p
already seen, a differently-cased spelling q starts from an empty working
snapshot (no seeding from the store, unlike p itself), while both spellings
read and write the same uppercased environment namespace. -/
theorem c10_seen_case_sensitive (s : PyState) (p q : String) (a : Nat)
    (hp : p ∈ s.seen) (hq : q ∉ s.seen) (hu : pyUpper q = pyUpper p)
    (hs : s.store = some a) :
    loadSeed q s = [] ∧ loadSeed p s = s.heap.get a ∧
    (∀ opts env, opts2env opts q env = opts2env opts p env) ∧
    (∀ env, load_from_env q env = load_from_env p env) := by
  refine ⟨?_, ?_, ?_, ?_⟩
  · unfold loadSeed
    rw [hs]
    simp [hq]
  · unfold loadSeed
    rw [hs]
    simp [hp]
  · intro opts env
    unfold opts2env
    rw [hu]
  · intro env
    unfold load_from_env
    rw [hu]

/-- Claim C10 witness: after loading with "ctest", a load with "CTEST" does
not seed from the store while "ctest" itself would. -/
theorem c10_seen_case_sensitive_witness :
    loadSeed "CTEST"
      (⟨⟨fun i => if i = 0 then [("K", PyVal.str "x")] else [], 1⟩, [],
        some 0, ["ctest"]⟩ : PyState) = [] ∧
    loadSeed "ctest"
      (⟨⟨fun i => if i = 0 then [("K", PyVal.str "x")] else [], 1⟩, [],
        some 0, ["ctest"]⟩ : PyState) = [("K", PyVal.str "x")] := by
  have h := c10_seen_case_sensitive
    (⟨⟨fun i => if i = 0 then [("K", PyVal.str "x")] else [], 1⟩, [],
      some 0, ["ctest"]⟩ : PyState) "ctest" "CTEST" 0
    (by decide) (by decide) (by decide) rfl
  exact ⟨h.1, h.2.1⟩

/-- Claim C5 counterexample: load stores BAR = "hello" and returns the store
object itself (address 0); writing through the returned mapping changes what
a subsequent get observes, so the return is not a copy that is safe to
mutate. -/
theorem c5_counterexample :
    (load [("--bar", PyVal.str "hello")] "ctest" Option.none initState).1
      = Except.ok 0 ∧
    storeDict (load [("--bar", PyVal.str "hello")] "ctest" Option.none
      initState).2 = [("BAR", PyVal.str "hello")] ∧
    (get (some "bar") PyVal.none (Except.ok [])
      (setItem (load [("--bar", PyVal.str "hello")] "ctest" Option.none
        initState).2 0 "BAR" (PyVal.str "changed"))).1
      = Except.ok (PyVal.str "changed") :=
  ⟨rfl, rfl, rfl⟩

/-- Claim C5 (amended): the mapping a successful load returns is the shared
store object itself, not a caller-safe copy: the returned address is the
store's address, and any caller mutation through it is observed by a
subsequent get. -/
theorem c5_load_returns_live_store (opts : Dict) (pfx : String)
    (file : Option (Except Unit Dict)) (s : PyState) (a : Nat) (s' : PyState)
    (h : load opts pfx file s = (Except.ok a, s')) :
    s'.store = some a ∧
    ∀ (k w : String) (dflt : PyVal) (b : Except Unit Dict), ¬(k = "") →
      (get (some k) dflt b (setItem s' a (pyUpper k) (PyVal.str w))).1
        = Except.ok (PyVal.str w) := by
  have hst := load_ok_store_addr h
  refine ⟨hst, ?_⟩
  intro k w dflt b hk
  apply get_key_nonref _ a _ _ _ (PyVal.str w) ?_ hk ?_ ?_
  · simpa [setItem] using hst
  · show assocGet ((setItem s' a (pyUpper k) (PyVal.str w)).heap.get a)
        (pyUpper k) = some (PyVal.str w)
    simp [setItem, heap_get_write_self, assocGet_assocSet_self]
  · intro c hc
    exact PyVal.noConfusion hc

/-- Claim C5 witness: a concrete load followed by a caller write through the
returned object, observed by get. -/
theorem c5_load_returns_live_store_witness :
    (get (some "x") PyVal.none (Except.ok [])
      (setItem (load [("--x", PyVal.str "1")] "w5" Option.none initState).2 0
        (pyUpper "x") (PyVal.str "new"))).1 = Except.ok (PyVal.str "new") := by
  have h : load [("--x", PyVal.str "1")] "w5" Option.none initState
      = (Except.ok 0,
         (load [("--x", PyVal.str "1")] "w5" Option.none initState).2) := rfl
  exact (c5_load_returns_live_store _ _ _ _ _ _ h).2 "x" "new" PyVal.none
    (Except.ok []) (by decide)

/-- Claim C6 counterexample: the store holds a nested mapping (address 0,
loaded from a file); get() returns a shallow copy (address 2) whose NESTED
entry still aliases address 0, so mutating the nested mapping reached through
the copy changes what a subsequent get("nested") observes ("1" before the
write, "2" after). -/
theorem c6_counterexample :
    (get Option.none PyVal.none (Except.ok [])
      (load [] "p" (some (Except.ok [("nested", PyVal.ref 0)]))
        (⟨⟨fun i => if i = 0 then [("X", PyVal.str "1")] else [], 1⟩, [],
          Option.none, []⟩ : PyState)).2).1 = Except.ok (PyVal.ref 2) ∧
    assocGet ((get Option.none PyVal.none (Except.ok [])
      (load [] "p" (some (Except.ok [("nested", PyVal.ref 0)]))
        (⟨⟨fun i => if i = 0 then [("X", PyVal.str "1")] else [], 1⟩, [],
          Option.none, []⟩ : PyState)).2).2.heap.get 2) "NESTED"
      = some (PyVal.ref 0) ∧
    (get (some "nested") PyVal.none (Except.ok [])
      ((get Option.none PyVal.none (Except.ok [])
        (load [] "p" (some (Except.ok [("nested", PyVal.ref 0)]))
          (⟨⟨fun i => if i = 0 then [("X", PyVal.str "1")] else [], 1⟩, [],
            Option.none, []⟩ : PyState)).2).2)).2.heap.get 3
      = [("X", PyVal.str "1")] ∧
    (get (some "nested") PyVal.none (Except.ok [])
      (setItem ((get Option.none PyVal.none (Except.ok [])
        (load [] "p" (some (Except.ok [("nested", PyVal.ref 0)]))
          (⟨⟨fun i => if i = 0 then [("X", PyVal.str "1")] else [], 1⟩, [],
            Option.none, []⟩ : PyState)).2).2) 0 "X"
        (PyVal.str "2"))).2.heap.get 3
      = [("X", PyVal.str "2")] :=
  ⟨rfl, rfl, rfl, rfl⟩

/-- Claim C6 (amended): get() with no key returns a SHALLOW copy: mutating
the returned mapping itself (its top-level entries) never changes the store
cell or the contents a subsequent get() returns; nested mapping values,
however, remain aliased (see the counterexample). -/
theorem c6_get_shallow_copy (s : PyState) (a : Nat) (dflt : PyVal)
    (b : Except Unit Dict) (k : String) (v : PyVal)
    (hs : s.store = some a) (ha : a < s.heap.next) :
    (get Option.none dflt b s).1 = Except.ok (PyVal.ref s.heap.next) ∧
    (get Option.none dflt b
        (setItem (get Option.none dflt b s).2 s.heap.next k v)).1
      = Except.ok (PyVal.ref (s.heap.next + 1)) ∧
    (get Option.none dflt b
        (setItem (get Option.none dflt b s).2 s.heap.next k v)).2.heap.get
        (s.heap.next + 1)
      = s.heap.get a := by
  have hne : ¬(a = s.heap.next) := Nat.ne_of_lt ha
  refine ⟨?_, ?_, ?_⟩ <;>
    simp [get, getAll, setItem, Heap.alloc, Heap.get, Heap.write, hs, hne]

/-- Claim C6 witness: a concrete store cell with a top-level write through
the copy leaving the store observation unchanged. -/
theorem c6_get_shallow_copy_witness :
    (get Option.none PyVal.none (Except.ok [])
      (⟨⟨fun i => if i = 0 then [("Y", PyVal.str "1")] else [], 1⟩, [],
        some 0, []⟩ : PyState)).1 = Except.ok (PyVal.ref 1) ∧
    (get Option.none PyVal.none (Except.ok [])
      (setItem (get Option.none PyVal.none (Except.ok [])
        (⟨⟨fun i => if i = 0 then [("Y", PyVal.str "1")] else [], 1⟩, [],
          some 0, []⟩ : PyState)).2 1 "Q" (PyVal.str "z"))).1
      = Except.ok (PyVal.ref 2) ∧
    (get Option.none PyVal.none (Except.ok [])
      (setItem (get Option.none PyVal.none (Except.ok [])
        (⟨⟨fun i => if i = 0 then [("Y", PyVal.str "1")] else [], 1⟩, [],
          some 0, []⟩ : PyState)).2 1 "Q" (PyVal.str "z"))).2.heap.get 2
      = [("Y", PyVal.str "1")] :=
  c6_get_shallow_copy
    (⟨⟨fun i => if i = 0 then [("Y", PyVal.str "1")] else [], 1⟩, [],
      some 0, []⟩ : PyState) 0 PyVal.none (Except.ok []) "Q" (PyVal.str "z")
    rfl (by decide)

/-- Claim C1 counterexample: key FOO is in both the file ("hello") and the
options (the False boolean); because False options are skipped during
projection, get("foo") returns the file value, not the options value. -/
theorem c1_counterexample :
    (get (some "foo") PyVal.none (Except.ok [])
      (load [("--foo", PyVal.bool false)] "ctest"
        (some (Except.ok [("foo", PyVal.str "hello")])) initState).2).1
      = Except.ok (PyVal.str "hello") ∧
    PyVal.str "hello" ≠ PyVal.bool false :=
  ⟨rfl, by decide⟩

/-- Claim C1 (amended): for every prefix, option key and string values, a
projected option value outranks both the file contents and a pre-existing
environment variable, observed at the key the projection lands on: with a
file key normalizing to the same name as the option key, and the option's
projected variable pre-set in the environment, get of any spelling of the
landed key (the projected name with every PREFIX_ occurrence stripped; equal
to the normalized name exactly when that name contains no PREFIX_ segment)
returns the coerced option value. A boolean-false or None option value is
skipped by the projection, and at other keys (e.g. a mangled normalized name)
the lower-precedence source survives — see the counterexamples of C1 and C9.
-/
theorem c1_options_override (pfx k kf q v fv w : String)
    (hfk : normalizeKey (pyUpper kf) = normalizeKey k)
    (hq : pyUpper q = pyReplace (pyUpper pfx ++ "_" ++ normalizeKey k)
        (pyUpper pfx ++ "_") "")
    (hq0 : ¬(q = "")) (dflt : PyVal) (b : Except Unit Dict) :
    (get (some q) dflt b
      (load [(k, PyVal.str v)] pfx (some (Except.ok [(kf, PyVal.str fv)]))
        (⟨initHeap, [(pyUpper pfx ++ "_" ++ normalizeKey k, w)], Option.none,
          []⟩ : PyState)).2).1
      = Except.ok (coerce v) := by
  have hstore : (load [(k, PyVal.str v)] pfx
      (some (Except.ok [(kf, PyVal.str fv)]))
      (⟨initHeap, [(pyUpper pfx ++ "_" ++ normalizeKey k, w)], Option.none,
        []⟩ : PyState)).2.store = some 0 := rfl
  have hcell : (load [(k, PyVal.str v)] pfx
      (some (Except.ok [(kf, PyVal.str fv)]))
      (⟨initHeap, [(pyUpper pfx ++ "_" ++ normalizeKey k, w)], Option.none,
        []⟩ : PyState)).2.heap.get 0
      = workConf [(k, PyVal.str v)] pfx (upperKeys [(kf, PyVal.str fv)])
          (⟨initHeap, [(pyUpper pfx ++ "_" ++ normalizeKey k, w)], Option.none,
            []⟩ : PyState) := rfl
  have hsc : loadStrConf [(k, PyVal.str v)] pfx
      (upperKeys [(kf, PyVal.str fv)])
      (⟨initHeap, [(pyUpper pfx ++ "_" ++ normalizeKey k, w)], Option.none,
        []⟩ : PyState)
      = assocSet [(pyUpper kf, PyVal.str fv)] k (PyVal.str v) := rfl
  -- after projecting the merged string view, the namespace variable holds v
  have henv : loadEnvAfter [(k, PyVal.str v)] pfx
      (upperKeys [(kf, PyVal.str fv)])
      (⟨initHeap, [(pyUpper pfx ++ "_" ++ normalizeKey k, w)], Option.none,
        []⟩ : PyState)
      = [(pyUpper pfx ++ "_" ++ normalizeKey k, v)] := by
    unfold loadEnvAfter opts2env
    rw [hsc]
    by_cases hb : pyUpper kf = k
    · rw [hb, assocSet_head_same, opts2envAux_cons, if_neg (by simp)]
      show opts2envAux (pyUpper pfx) []
          (assocSet [(pyUpper pfx ++ "_" ++ normalizeKey k, w)]
            (pyUpper pfx ++ "_" ++ normalizeKey k) v) = _
      rw [opts2envAux_nil, assocSet_head_same]
    · rw [assocSet_head_ne hb]
      show opts2envAux (pyUpper pfx)
          [(pyUpper kf, PyVal.str fv), (k, PyVal.str v)]
          [(pyUpper pfx ++ "_" ++ normalizeKey k, w)] = _
      rw [opts2envAux_cons, if_neg (by simp), hfk]
      show opts2envAux (pyUpper pfx) [(k, PyVal.str v)]
          (assocSet [(pyUpper pfx ++ "_" ++ normalizeKey k, w)]
            (pyUpper pfx ++ "_" ++ normalizeKey k) fv) = _
      rw [assocSet_head_same, opts2envAux_cons, if_neg (by simp)]
      show opts2envAux (pyUpper pfx) []
          (assocSet [(pyUpper pfx ++ "_" ++ normalizeKey k, fv)]
            (pyUpper pfx ++ "_" ++ normalizeKey k) v) = _
      rw [opts2envAux_nil, assocSet_head_same]
  -- re-reading the namespace lands the coerced option value on the stripped
  -- key, and the merge into the working snapshot stores it there
  have hwc : assocGet (workConf [(k, PyVal.str v)] pfx
      (upperKeys [(kf, PyVal.str fv)])
      (⟨initHeap, [(pyUpper pfx ++ "_" ++ normalizeKey k, w)], Option.none,
        []⟩ : PyState)) (pyUpper q) = some (coerce v) := by
    unfold workConf
    rw [henv]
    unfold load_from_env
    rw [loadEnvAux_cons, if_pos (pyStartsWith_append _ _), loadEnvAux_nil, hq]
    show assocGet (assocSet (loadConf pfx (upperKeys [(kf, PyVal.str fv)])
        (⟨initHeap, [(pyUpper pfx ++ "_" ++ normalizeKey k, w)], Option.none,
          []⟩ : PyState))
        (pyReplace (pyUpper pfx ++ "_" ++ normalizeKey k)
          (pyUpper pfx ++ "_") "") (coerce v))
        (pyReplace (pyUpper pfx ++ "_" ++ normalizeKey k)
          (pyUpper pfx ++ "_") "") = some (coerce v)
    exact assocGet_assocSet_self _ _ _
  exact get_key_nonref _ 0 q dflt b (coerce v) hstore hq0
    (by rw [hcell]; exact hwc) (coerce_ne_ref v)

/-- Claim C1 witness: prefix ctest, option --foo = "x" against file foo =
"filev" and pre-existing CTEST_FOO = "w0"; get("foo") returns the option
value. -/
theorem c1_options_override_witness :
    (get (some "foo") PyVal.none (Except.ok [])
      (load [("--foo", PyVal.str "x")] "ctest"
        (some (Except.ok [("foo", PyVal.str "filev")]))
        (⟨initHeap, [(pyUpper "ctest" ++ "_" ++ normalizeKey "--foo", "w0")],
          Option.none, []⟩ : PyState)).2).1
      = Except.ok (PyVal.str "x") := by
  have h := c1_options_override "ctest" "--foo" "foo" "foo" "x" "filev" "w0"
    (by decide) (by decide) (by decide) PyVal.none (Except.ok [])
  exact h.trans (congrArg Except.ok (by decide))

/-- Claim C7 counterexample: with a pre-existing variable MORE_foo=hi (bare
key not in normalized form), the first load stores key "foo"; the second,
identical load re-projects it as MORE_FOO and so also stores key "FOO": the
store contents after the second call differ from those after the first. -/
theorem c7_counterexample :
    storeDict (load [] "MORE" Option.none
      (⟨initHeap, [("MORE_foo", "hi")], Option.none, []⟩ : PyState)).2
      = [("foo", PyVal.str "hi")] ∧
    storeDict (load [] "MORE" Option.none
      (load [] "MORE" Option.none
        (⟨initHeap, [("MORE_foo", "hi")], Option.none, []⟩ : PyState)).2).2
      = [("foo", PyVal.str "hi"), ("FOO", PyVal.str "hi")] ∧
    ([("foo", PyVal.str "hi"), ("FOO", PyVal.str "hi")] : Dict)
      ≠ [("foo", PyVal.str "hi")] :=
  ⟨rfl, rfl, by decide⟩

/-- Claim C7 (amended): re-loading with identical options, file and prefix
yields the same store contents when strip and re-projection are mutually
inverse on the names involved: prefixing-and-normalizing the stripped bare
key of the matching pre-existing variable reconstructs exactly that
variable's name, and likewise for the option's projected name. Without that
round-trip stability a second call adds a fresh key (counterexample
MORE_foo; likewise a variable A_AA__B whose stripped key A_B looks
normalized but re-projects to A_A_B). Proved universally over the prefix,
the option key and value, and the pre-existing variable's name and value,
for a one-option, one-variable call. -/
theorem c7_reload_idempotent (pfx k ne v w : String)
    (hne : pyStartsWith ne (pyUpper pfx ++ "_") = true)
    (h1 : pyUpper pfx ++ "_"
        ++ normalizeKey (pyReplace ne (pyUpper pfx ++ "_") "") = ne)
    (h2 : pyUpper pfx ++ "_"
        ++ normalizeKey (pyReplace (pyUpper pfx ++ "_" ++ normalizeKey k)
          (pyUpper pfx ++ "_") "")
      = pyUpper pfx ++ "_" ++ normalizeKey k) :
    storeDict (load [(k, PyVal.str v)] pfx Option.none
      (load [(k, PyVal.str v)] pfx Option.none
        (⟨initHeap, [(ne, w)], Option.none, []⟩ : PyState)).2).2
      = storeDict (load [(k, PyVal.str v)] pfx Option.none
          (⟨initHeap, [(ne, w)], Option.none, []⟩ : PyState)).2 := by
  have hstore1 : (load [(k, PyVal.str v)] pfx Option.none
      (⟨initHeap, [(ne, w)], Option.none, []⟩ : PyState)).2.store
      = some 0 := rfl
  have hseen1 : (load [(k, PyVal.str v)] pfx Option.none
      (⟨initHeap, [(ne, w)], Option.none, []⟩ : PyState)).2.seen
      = [pfx] := rfl
  have henv1 : (load [(k, PyVal.str v)] pfx Option.none
      (⟨initHeap, [(ne, w)], Option.none, []⟩ : PyState)).2.env
      = assocSet [(ne, w)] (pyUpper pfx ++ "_" ++ normalizeKey k) v := rfl
  have hcell1 : (load [(k, PyVal.str v)] pfx Option.none
      (⟨initHeap, [(ne, w)], Option.none, []⟩ : PyState)).2.heap.get 0
      = assocUpdate [] (load_from_env pfx
          (assocSet [(ne, w)] (pyUpper pfx ++ "_" ++ normalizeKey k) v)) :=
    rfl
  by_cases hc : ne = pyUpper pfx ++ "_" ++ normalizeKey k
  · -- the pre-existing variable IS the option's projected variable
    have hE : assocSet [(ne, w)] (pyUpper pfx ++ "_" ++ normalizeKey k) v
        = [(pyUpper pfx ++ "_" ++ normalizeKey k, v)] := by
      rw [hc, assocSet_head_same]
    have hlfe : load_from_env pfx
        [(pyUpper pfx ++ "_" ++ normalizeKey k, v)]
        = [(pyReplace (pyUpper pfx ++ "_" ++ normalizeKey k)
            (pyUpper pfx ++ "_") "", coerce v)] := by
      unfold load_from_env
      rw [loadEnvAux_cons, if_pos (pyStartsWith_append _ _), loadEnvAux_nil]
      rfl
    have hS1 : (load [(k, PyVal.str v)] pfx Option.none
        (⟨initHeap, [(ne, w)], Option.none, []⟩ : PyState)).2.heap.get 0
        = [(pyReplace (pyUpper pfx ++ "_" ++ normalizeKey k)
            (pyUpper pfx ++ "_") "", coerce v)] := by
      rw [hcell1, hE, hlfe]
      rfl
    have hsd1 : storeDict (load [(k, PyVal.str v)] pfx Option.none
        (⟨initHeap, [(ne, w)], Option.none, []⟩ : PyState)).2
        = [(pyReplace (pyUpper pfx ++ "_" ++ normalizeKey k)
            (pyUpper pfx ++ "_") "", coerce v)] := by
      rw [storeDict_eq hstore1]
      exact hS1
    have hseed2 : loadSeed pfx (load [(k, PyVal.str v)] pfx Option.none
        (⟨initHeap, [(ne, w)], Option.none, []⟩ : PyState)).2
        = [(pyReplace (pyUpper pfx ++ "_" ++ normalizeKey k)
            (pyUpper pfx ++ "_") "", coerce v)] := by
      simp only [loadSeed, hstore1, hseen1]
      rw [if_pos (List.mem_cons_self _ _)]
      exact hS1
    have hconf2 : loadConf pfx [] (load [(k, PyVal.str v)] pfx Option.none
        (⟨initHeap, [(ne, w)], Option.none, []⟩ : PyState)).2
        = [(pyReplace (pyUpper pfx ++ "_" ++ normalizeKey k)
            (pyUpper pfx ++ "_") "", coerce v)] := by
      unfold loadConf
      rw [assocUpdate_nil]
      exact hseed2
    have hsc2 : loadStrConf [(k, PyVal.str v)] pfx []
        (load [(k, PyVal.str v)] pfx Option.none
          (⟨initHeap, [(ne, w)], Option.none, []⟩ : PyState)).2
        = assocSet (List.filter (fun kv => isStr kv.2)
            [(pyReplace (pyUpper pfx ++ "_" ++ normalizeKey k)
              (pyUpper pfx ++ "_") "", coerce v)]) k (PyVal.str v) := by
      unfold loadStrConf
      rw [hconf2]
      rfl
    have henv2 : loadEnvAfter [(k, PyVal.str v)] pfx []
        (load [(k, PyVal.str v)] pfx Option.none
          (⟨initHeap, [(ne, w)], Option.none, []⟩ : PyState)).2
        = (load [(k, PyVal.str v)] pfx Option.none
            (⟨initHeap, [(ne, w)], Option.none, []⟩ : PyState)).2.env := by
      unfold loadEnvAfter opts2env
      rw [hsc2]
      apply opts2envAux_noop
      intro kv hkv _
      rcases assocSet_mem_cases hkv with hin | he
      · have hm := List.mem_filter.mp hin
        have hkv' : kv = (pyReplace (pyUpper pfx ++ "_" ++ normalizeKey k)
            (pyUpper pfx ++ "_") "", coerce v) := List.mem_singleton.mp hm.1
        subst hkv'
        have hcv : coerce v = PyVal.str v := isStr_coerce (by simpa using hm.2)
        show assocGet (load [(k, PyVal.str v)] pfx Option.none
            (⟨initHeap, [(ne, w)], Option.none, []⟩ : PyState)).2.env
            (pyUpper pfx ++ "_"
              ++ normalizeKey (pyReplace (pyUpper pfx ++ "_" ++ normalizeKey k)
                (pyUpper pfx ++ "_") ""))
          = some (projVal (coerce v))
        rw [h2, hcv, henv1, hE]
        simp [assocGet, projVal, pyStr]
      · subst he
        show assocGet (load [(k, PyVal.str v)] pfx Option.none
            (⟨initHeap, [(ne, w)], Option.none, []⟩ : PyState)).2.env
            (pyUpper pfx ++ "_" ++ normalizeKey k)
          = some (projVal (PyVal.str v))
        rw [henv1, hE]
        simp [assocGet, projVal, pyStr]
    have hlfe2 : load_from_env pfx (loadEnvAfter [(k, PyVal.str v)] pfx []
        (load [(k, PyVal.str v)] pfx Option.none
          (⟨initHeap, [(ne, w)], Option.none, []⟩ : PyState)).2)
        = [(pyReplace (pyUpper pfx ++ "_" ++ normalizeKey k)
            (pyUpper pfx ++ "_") "", coerce v)] := by
      rw [henv2, henv1, hE]
      exact hlfe
    have hget2 : ∀ q ∈ ([(pyReplace (pyUpper pfx ++ "_" ++ normalizeKey k)
        (pyUpper pfx ++ "_") "", coerce v)] : Dict),
        assocGet [(pyReplace (pyUpper pfx ++ "_" ++ normalizeKey k)
          (pyUpper pfx ++ "_") "", coerce v)] q.1 = some q.2 := by
      intro q hq
      rw [List.mem_singleton.mp hq]
      simp [assocGet]
    have hwork2 : workConf [(k, PyVal.str v)] pfx []
        (load [(k, PyVal.str v)] pfx Option.none
          (⟨initHeap, [(ne, w)], Option.none, []⟩ : PyState)).2
        = [(pyReplace (pyUpper pfx ++ "_" ++ normalizeKey k)
            (pyUpper pfx ++ "_") "", coerce v)] := by
      unfold workConf
      rw [hconf2, hlfe2]
      exact assocUpdate_noop _ _ hget2
    show storeDict (loadOk [(k, PyVal.str v)] pfx []
        (load [(k, PyVal.str v)] pfx Option.none
          (⟨initHeap, [(ne, w)], Option.none, []⟩ : PyState)).2).2
      = storeDict (load [(k, PyVal.str v)] pfx Option.none
          (⟨initHeap, [(ne, w)], Option.none, []⟩ : PyState)).2
    have hfc := loadOk_final_cell [(k, PyVal.str v)] pfx [] hstore1
    rw [storeDict_eq hfc.1, hfc.2, hS1, hwork2, hsd1]
    exact assocUpdate_noop _ _ hget2
  · -- distinct pre-existing variable and projected variable
    have hcb : (ne == pyUpper pfx ++ "_" ++ normalizeKey k) = false :=
      beq_eq_false_iff_ne.mpr hc
    have hE : assocSet [(ne, w)] (pyUpper pfx ++ "_" ++ normalizeKey k) v
        = [(ne, w), (pyUpper pfx ++ "_" ++ normalizeKey k, v)] := by
      rw [assocSet_head_ne hc]
      rfl
    have hkek : pyReplace ne (pyUpper pfx ++ "_") ""
        ≠ pyReplace (pyUpper pfx ++ "_" ++ normalizeKey k)
            (pyUpper pfx ++ "_") "" := by
      intro he
      apply hc
      rw [← h1, he, h2]
    have hkekb : (pyReplace ne (pyUpper pfx ++ "_") ""
        == pyReplace (pyUpper pfx ++ "_" ++ normalizeKey k)
            (pyUpper pfx ++ "_") "") = false :=
      beq_eq_false_iff_ne.mpr hkek
    have hlfe : load_from_env pfx
        [(ne, w), (pyUpper pfx ++ "_" ++ normalizeKey k, v)]
        = [(pyReplace ne (pyUpper pfx ++ "_") "", coerce w),
           (pyReplace (pyUpper pfx ++ "_" ++ normalizeKey k)
             (pyUpper pfx ++ "_") "", coerce v)] := by
      unfold load_from_env
      rw [loadEnvAux_cons, if_pos hne, loadEnvAux_cons,
        if_pos (pyStartsWith_append _ _), loadEnvAux_nil]
      show assocSet [(pyReplace ne (pyUpper pfx ++ "_") "", coerce w)]
          (pyReplace (pyUpper pfx ++ "_" ++ normalizeKey k)
            (pyUpper pfx ++ "_") "") (coerce v) = _
      rw [assocSet_head_ne hkek]
      rfl
    have hS1 : (load [(k, PyVal.str v)] pfx Option.none
        (⟨initHeap, [(ne, w)], Option.none, []⟩ : PyState)).2.heap.get 0
        = [(pyReplace ne (pyUpper pfx ++ "_") "", coerce w),
           (pyReplace (pyUpper pfx ++ "_" ++ normalizeKey k)
             (pyUpper pfx ++ "_") "", coerce v)] := by
      rw [hcell1, hE, hlfe]
      show assocSet [(pyReplace ne (pyUpper pfx ++ "_") "", coerce w)]
          (pyReplace (pyUpper pfx ++ "_" ++ normalizeKey k)
            (pyUpper pfx ++ "_") "") (coerce v) = _
      rw [assocSet_head_ne hkek]
      rfl
    have hsd1 : storeDict (load [(k, PyVal.str v)] pfx Option.none
        (⟨initHeap, [(ne, w)], Option.none, []⟩ : PyState)).2
        = [(pyReplace ne (pyUpper pfx ++ "_") "", coerce w),
           (pyReplace (pyUpper pfx ++ "_" ++ normalizeKey k)
             (pyUpper pfx ++ "_") "", coerce v)] := by
      rw [storeDict_eq hstore1]
      exact hS1
    have hseed2 : loadSeed pfx (load [(k, PyVal.str v)] pfx Option.none
        (⟨initHeap, [(ne, w)], Option.none, []⟩ : PyState)).2
        = [(pyReplace ne (pyUpper pfx ++ "_") "", coerce w),
           (pyReplace (pyUpper pfx ++ "_" ++ normalizeKey k)
             (pyUpper pfx ++ "_") "", coerce v)] := by
      simp only [loadSeed, hstore1, hseen1]
      rw [if_pos (List.mem_cons_self _ _)]
      exact hS1
    have hconf2 : loadConf pfx [] (load [(k, PyVal.str v)] pfx Option.none
        (⟨initHeap, [(ne, w)], Option.none, []⟩ : PyState)).2
        = [(pyReplace ne (pyUpper pfx ++ "_") "", coerce w),
           (pyReplace (pyUpper pfx ++ "_" ++ normalizeKey k)
             (pyUpper pfx ++ "_") "", coerce v)] := by
      unfold loadConf
      rw [assocUpdate_nil]
      exact hseed2
    have hsc2 : loadStrConf [(k, PyVal.str v)] pfx []
        (load [(k, PyVal.str v)] pfx Option.none
          (⟨initHeap, [(ne, w)], Option.none, []⟩ : PyState)).2
        = assocSet (List.filter (fun kv => isStr kv.2)
            [(pyReplace ne (pyUpper pfx ++ "_") "", coerce w),
             (pyReplace (pyUpper pfx ++ "_" ++ normalizeKey k)
               (pyUpper pfx ++ "_") "", coerce v)]) k (PyVal.str v) := by
      unfold loadStrConf
      rw [hconf2]
      rfl
    have henv2 : loadEnvAfter [(k, PyVal.str v)] pfx []
        (load [(k, PyVal.str v)] pfx Option.none
          (⟨initHeap, [(ne, w)], Option.none, []⟩ : PyState)).2
        = (load [(k, PyVal.str v)] pfx Option.none
            (⟨initHeap, [(ne, w)], Option.none, []⟩ : PyState)).2.env := by
      unfold loadEnvAfter opts2env
      rw [hsc2]
      apply opts2envAux_noop
      intro kv hkv _
      rcases assocSet_mem_cases hkv with hin | he
      · have hm := List.mem_filter.mp hin
        rcases List.mem_cons.mp hm.1 with he1 | hm2
        · subst he1
          have hcw : coerce w = PyVal.str w :=
            isStr_coerce (by simpa using hm.2)
          show assocGet (load [(k, PyVal.str v)] pfx Option.none
              (⟨initHeap, [(ne, w)], Option.none, []⟩ : PyState)).2.env
              (pyUpper pfx ++ "_"
                ++ normalizeKey (pyReplace ne (pyUpper pfx ++ "_") ""))
            = some (projVal (coerce w))
          rw [h1, hcw, henv1, hE]
          simp [assocGet, projVal, pyStr]
        · have he2 : kv = (pyReplace (pyUpper pfx ++ "_" ++ normalizeKey k)
              (pyUpper pfx ++ "_") "", coerce v) := List.mem_singleton.mp hm2
          subst he2
          have hcv : coerce v = PyVal.str v :=
            isStr_coerce (by simpa using hm.2)
          show assocGet (load [(k, PyVal.str v)] pfx Option.none
              (⟨initHeap, [(ne, w)], Option.none, []⟩ : PyState)).2.env
              (pyUpper pfx ++ "_"
                ++ normalizeKey (pyReplace (pyUpper pfx ++ "_"
                  ++ normalizeKey k) (pyUpper pfx ++ "_") ""))
            = some (projVal (coerce v))
          rw [h2, hcv, henv1, hE]
          simp [assocGet, hcb, projVal, pyStr]
      · subst he
        show assocGet (load [(k, PyVal.str v)] pfx Option.none
            (⟨initHeap, [(ne, w)], Option.none, []⟩ : PyState)).2.env
            (pyUpper pfx ++ "_" ++ normalizeKey k)
          = some (projVal (PyVal.str v))
        rw [henv1, hE]
        simp [assocGet, hcb, projVal, pyStr]
    have hlfe2 : load_from_env pfx (loadEnvAfter [(k, PyVal.str v)] pfx []
        (load [(k, PyVal.str v)] pfx Option.none
          (⟨initHeap, [(ne, w)], Option.none, []⟩ : PyState)).2)
        = [(pyReplace ne (pyUpper pfx ++ "_") "", coerce w),
           (pyReplace (pyUpper pfx ++ "_" ++ normalizeKey k)
             (pyUpper pfx ++ "_") "", coerce v)] := by
      rw [henv2, henv1, hE]
      exact hlfe
    have hget2 : ∀ q ∈ ([(pyReplace ne (pyUpper pfx ++ "_") "", coerce w),
        (pyReplace (pyUpper pfx ++ "_" ++ normalizeKey k)
          (pyUpper pfx ++ "_") "", coerce v)] : Dict),
        assocGet [(pyReplace ne (pyUpper pfx ++ "_") "", coerce w),
          (pyReplace (pyUpper pfx ++ "_" ++ normalizeKey k)
            (pyUpper pfx ++ "_") "", coerce v)] q.1 = some q.2 := by
      intro q hq
      rcases List.mem_cons.mp hq with he1 | hm2
      · subst he1
        simp [assocGet]
      · rw [List.mem_singleton.mp hm2]
        simp [assocGet, hkekb]
    have hwork2 : workConf [(k, PyVal.str v)] pfx []
        (load [(k, PyVal.str v)] pfx Option.none
          (⟨initHeap, [(ne, w)], Option.none, []⟩ : PyState)).2
        = [(pyReplace ne (pyUpper pfx ++ "_") "", coerce w),
           (pyReplace (pyUpper pfx ++ "_" ++ normalizeKey k)
             (pyUpper pfx ++ "_") "", coerce v)] := by
      unfold workConf
      rw [hconf2, hlfe2]
      exact assocUpdate_noop _ _ hget2
    show storeDict (loadOk [(k, PyVal.str v)] pfx []
        (load [(k, PyVal.str v)] pfx Option.none
          (⟨initHeap, [(ne, w)], Option.none, []⟩ : PyState)).2).2
      = storeDict (load [(k, PyVal.str v)] pfx Option.none
          (⟨initHeap, [(ne, w)], Option.none, []⟩ : PyState)).2
    have hfc := loadOk_final_cell [(k, PyVal.str v)] pfx [] hstore1
    rw [storeDict_eq hfc.1, hfc.2, hS1, hwork2, hsd1]
    exact assocUpdate_noop _ _ hget2

/-- Claim C7 witness: prefix more, option --foo = "1" and pre-existing
MORE_STUFF = "4" — both names round-trip stable — re-load is idempotent. -/
theorem c7_reload_idempotent_witness :
    storeDict (load [("--foo", PyVal.str "1")] "more" Option.none
      (load [("--foo", PyVal.str "1")] "more" Option.none
        (⟨initHeap, [("MORE_STUFF", "4")], Option.none, []⟩ : PyState)).2).2
      = storeDict (load [("--foo", PyVal.str "1")] "more" Option.none
          (⟨initHeap, [("MORE_STUFF", "4")], Option.none, []⟩ : PyState)).2 :=
  c7_reload_idempotent "more" "--foo" "MORE_STUFF" "1" "4" (by decide)
    (by decide) (by decide)

/-- Claim C9 counterexample: the options key "a_b" normalizes to "A_B", but
after projection as A_A_B and the all-occurrences strip it is stored under
"B": the normalized uppercase name A_B is absent from the store. -/
theorem c9_counterexample :
    storeDict (load [("a_b", PyVal.str "1")] "a" Option.none initState).2
      = [("B", PyVal.str "1")] ∧
    assocGet (storeDict (load [("a_b", PyVal.str "1")] "a" Option.none
      initState).2) "A_B" = Option.none ∧
    normalizeKey "a_b" = "A_B" :=
  ⟨rfl, rfl, rfl⟩

/-- Claim C9 (amended): after a successful load, every file key is present
under its uppercased name (whatever its value); every options key whose value
is projected (not the False boolean, not None) is present under its projected
variable name with every PREFIX_ occurrence stripped (this equals the
normalized uppercase name exactly when that name does not itself contain
PREFIX_); and the store never shrinks: every key present before is present
after. -/
theorem c9_keys_present (opts : Dict) (pfx : String) (fileD : Dict)
    (s : PyState) (a : Nat) (s' : PyState)
    (hnd : (opts.map Prod.fst).Nodup)
    (h : load opts pfx (some (Except.ok fileD)) s = (Except.ok a, s')) :
    (∀ k v, (k, v) ∈ fileD →
      (assocGet (s'.heap.get a) (pyUpper k)).isSome = true) ∧
    (∀ k v, (k, v) ∈ opts → v ≠ PyVal.bool false → v ≠ PyVal.none →
      (assocGet (s'.heap.get a)
        (pyReplace (pyUpper pfx ++ "_" ++ normalizeKey k)
          (pyUpper pfx ++ "_") "")).isSome = true) ∧
    (∀ k, (assocGet (storeDict s) k).isSome = true →
      (assocGet (s'.heap.get a) k).isSome = true) := by
  obtain ⟨ha, hs'⟩ := load_ok_eq h
  subst ha
  subst hs'
  refine ⟨?_, ?_, ?_⟩
  · intro k v hm
    apply loadOk_cell_isSome
    have h1 : (assocGet (upperKeys fileD) (pyUpper k)).isSome = true :=
      upperKeysAux_mem fileD [] k v hm
    have h2 : (assocGet (loadConf pfx (upperKeys fileD) s)
        (pyUpper k)).isSome = true := by
      unfold loadConf
      exact assocGet_assocUpdate_right_isSome _ _ h1
    unfold workConf
    exact assocGet_assocUpdate_isSome _ _ h2
  · intro k v hm hf hn
    apply loadOk_cell_isSome
    have hstr : assocGet (loadStrConf opts pfx (upperKeys fileD) s) k
        = some v := by
      unfold loadStrConf
      exact assocGet_assocUpdate_of_mem_nodup opts _ hnd hm
    have hmem := assocGet_mem hstr
    have henv : (assocGet (loadEnvAfter opts pfx (upperKeys fileD) s)
        (pyUpper pfx ++ "_" ++ normalizeKey k)).isSome = true := by
      unfold loadEnvAfter opts2env
      exact opts2envAux_mem _ _ k v hmem hf hn
    obtain ⟨wv, hw⟩ := Option.isSome_iff_exists.mp henv
    have hmemEnv := assocGet_mem hw
    have hsw : pyStartsWith (pyUpper pfx ++ "_" ++ normalizeKey k)
        (pyUpper pfx ++ "_") = true := pyStartsWith_append _ _
    have hlfe : (assocGet (load_from_env pfx
        (loadEnvAfter opts pfx (upperKeys fileD) s))
        (pyReplace (pyUpper pfx ++ "_" ++ normalizeKey k)
          (pyUpper pfx ++ "_") "")).isSome = true := by
      unfold load_from_env
      exact loadEnvAux_complete _ [] _ wv hmemEnv hsw
    unfold workConf
    exact assocGet_assocUpdate_right_isSome _ _ hlfe
  · intro k hk
    exact loadOk_cell_mono hk

/-- Claim C9 witness: a concrete load with one file key and one projected
options key, the file key being present afterwards. -/
theorem c9_keys_present_witness :
    (assocGet ((load [("--foo", PyVal.str "1")] "w9"
      (some (Except.ok [("fk", PyVal.str "2")])) initState).2.heap.get 0)
      (pyUpper "fk")).isSome = true := by
  have h : load [("--foo", PyVal.str "1")] "w9"
      (some (Except.ok [("fk", PyVal.str "2")])) initState
      = (Except.ok 0, (load [("--foo", PyVal.str "1")] "w9"
          (some (Except.ok [("fk", PyVal.str "2")])) initState).2) := rfl
  exact (c9_keys_present _ _ _ _ _ _ (by decide) h).1 "fk" (PyVal.str "2")
    (by decide)

end Cfeconfig
